import Mathlib

/-!
Verification development for the YinPitchTracker core pipeline
(`src/core/yin.ts`, `src/core/dsp/*.ts`, `src/core/note-utils.ts`,
`src/core/pitch-engine.ts`).

Numbers are modelled as rationals.  JavaScript arithmetic produces
`NaN`/`Infinity` in the YIN normalization step when the running sum is
zero (an all-silent frame), and those values drive the control flow of
the threshold search, so the values flowing through the YIN buffer are
modelled by `Jq`: a rational tagged with the three IEEE special values,
with the IEEE rules for the exact operations the source performs.
Transcendental library calls (`Math.cos`, `Math.sin`, `Math.log2`,
`Math.pow(2, _)`, `Math.sqrt`) are modelled as an explicit oracle
bundle `MathOps`; every definition is a function of that bundle, so all
definitions stay executable.  A JavaScript runtime fault (a thrown
`TypeError`) is modelled as `none` in an `Option` result.
-/

/-- Value of a JavaScript `number` as seen by this embedding: a finite
rational or one of the IEEE special values. -/
inductive Jq where
  | fin (q : ℚ)
  | nan
  | pinf
  | ninf
deriving DecidableEq, Repr

namespace Jq

/-- IEEE addition on the modelled values. -/
def add : Jq → Jq → Jq
  | .nan, _ => .nan
  | _, .nan => .nan
  | .fin a, .fin b => .fin (a + b)
  | .fin _, .pinf => .pinf
  | .fin _, .ninf => .ninf
  | .pinf, .fin _ => .pinf
  | .ninf, .fin _ => .ninf
  | .pinf, .pinf => .pinf
  | .ninf, .ninf => .ninf
  | .pinf, .ninf => .nan
  | .ninf, .pinf => .nan

/-- IEEE negation on the modelled values. -/
def neg : Jq → Jq
  | .fin a => .fin (-a)
  | .nan => .nan
  | .pinf => .ninf
  | .ninf => .pinf

/-- IEEE subtraction on the modelled values. -/
def sub (a b : Jq) : Jq := add a (neg b)

/-- IEEE multiplication on the modelled values (`0 * ∞ = NaN`). -/
def mul : Jq → Jq → Jq
  | .nan, _ => .nan
  | _, .nan => .nan
  | .fin a, .fin b => .fin (a * b)
  | .fin a, .pinf => if 0 < a then .pinf else if a < 0 then .ninf else .nan
  | .fin a, .ninf => if 0 < a then .ninf else if a < 0 then .pinf else .nan
  | .pinf, .fin b => if 0 < b then .pinf else if b < 0 then .ninf else .nan
  | .ninf, .fin b => if 0 < b then .ninf else if b < 0 then .pinf else .nan
  | .pinf, .pinf => .pinf
  | .pinf, .ninf => .ninf
  | .ninf, .pinf => .ninf
  | .ninf, .ninf => .pinf

/-- IEEE division on the modelled values (`x / 0` is a signed infinity
for `x ≠ 0` and `NaN` for `x = 0`; rationals have no negative zero). -/
def div : Jq → Jq → Jq
  | .nan, _ => .nan
  | _, .nan => .nan
  | .fin a, .fin b =>
      if b = 0 then (if 0 < a then .pinf else if a < 0 then .ninf else .nan)
      else .fin (a / b)
  | .fin _, .pinf => .fin 0
  | .fin _, .ninf => .fin 0
  | .pinf, .fin b => if 0 ≤ b then .pinf else .ninf
  | .ninf, .fin b => if 0 ≤ b then .ninf else .pinf
  | .pinf, .pinf => .nan
  | .pinf, .ninf => .nan
  | .ninf, .pinf => .nan
  | .ninf, .ninf => .nan

/-- IEEE `<` comparison: any comparison with `NaN` is false. -/
def lt : Jq → Jq → Bool
  | .nan, _ => false
  | _, .nan => false
  | .fin a, .fin b => a < b
  | .fin _, .pinf => true
  | .fin _, .ninf => false
  | .pinf, _ => false
  | .ninf, .ninf => false
  | .ninf, _ => true

/-- JavaScript truthiness of a number: `0` and `NaN` are falsy. -/
def truthy : Jq → Bool
  | .fin q => q ≠ 0
  | .nan => false
  | .pinf => true
  | .ninf => true

/-- JavaScript test `v > 0` (false for `NaN`). -/
def gtZero : Jq → Bool
  | .fin q => 0 < q
  | .nan => false
  | .pinf => true
  | .ninf => false

end Jq

/-!
YIN pitch detector, from `src/core/yin.ts` (`Yin.detectPitch`).
The frame is a `List ℚ`; out-of-range reads never occur in the source
(all indices are bounded by `halfBufferSize`), so list reads use a
default of `0`.
-/

/-- Step 1 of `Yin.detectPitch`: the difference function
`d(τ) = Σ_{i=0}^{half-1} (x[i] - x[i+τ])²` (the source accumulates
`delta * delta` over `i < halfBufferSize`). -/
def yinDiff (buf : List ℚ) (tau : ℕ) : ℚ :=
  (List.range (buf.length / 2)).foldl
    (fun sum i => sum + (buf.getD i 0 - buf.getD (i + tau) 0) * (buf.getD i 0 - buf.getD (i + tau) 0)) 0

/-- Running sum of the difference function after the step-2 loop
iteration for lag `tau`: `Σ_{k=1}^{tau} d(k)` (the source's
`runningSum` accumulator). -/
def yinRunningSum (buf : List ℚ) : ℕ → ℚ
  | 0 => 0
  | n + 1 => yinRunningSum buf n + yinDiff buf (n + 1)

/-- Step 2 of `Yin.detectPitch`: the cumulative-mean-normalized
difference stored in `yinBuffer`.  `d'(0) = 1`; for `τ ≥ 1` the source
computes `yinBuffer[tau] *= tau / runningSum` in IEEE arithmetic, which
is `NaN` exactly when all differences up to `τ` are zero (silent
frame). -/
def yinCmnd (buf : List ℚ) (tau : ℕ) : Jq :=
  if tau = 0 then .fin 1
  else Jq.mul (.fin (yinDiff buf tau)) (Jq.div (.fin (tau : ℚ)) (.fin (yinRunningSum buf tau)))

/-- Step 3 inner loop of `Yin.detectPitch`: starting from the first lag
under threshold, walk forward while `yinBuffer[tau+1] < yinBuffer[tau]`
and `tau + 1 < half`.  The walk advances at most `half` times because
it requires `tau + 1 < half`, so fuel `half` makes this total function
equal to the source's unbounded `while` loop. -/
def yinWalk (buf : List ℚ) (half : ℕ) : ℕ → ℕ → ℕ
  | 0, tau => tau
  | fuel + 1, tau =>
      if tau + 1 < half ∧ Jq.lt (yinCmnd buf (tau + 1)) (yinCmnd buf tau) = true
      then yinWalk buf half fuel (tau + 1)
      else tau

/-- Step 3 outer loop of `Yin.detectPitch`: the first lag
`τ ∈ [2, half)` with `yinBuffer[τ] < threshold` (IEEE comparison, so a
`NaN` entry never passes). -/
def yinFindTau (buf : List ℚ) (half : ℕ) (threshold : ℚ) : Option ℕ :=
  (List.range' 2 (half - 2)).find? (fun tau => Jq.lt (yinCmnd buf tau) (.fin threshold))

/-- Step 4 of `Yin.detectPitch`: `Yin.parabolicInterpolation` on the
CMND buffer (whose length is `half`). -/
def yinParabolic (buf : List ℚ) (half : ℕ) (tau : ℕ) : Jq :=
  let x0 := if tau < 1 then tau else tau - 1
  let x2 := if tau + 1 < half then tau + 1 else tau
  if x0 = tau ∨ x2 = tau then .fin (tau : ℚ)
  else
    let s0 := yinCmnd buf x0
    let s1 := yinCmnd buf tau
    let s2 := yinCmnd buf x2
    Jq.add (.fin (tau : ℚ))
      (Jq.div (Jq.sub s2 s0) (Jq.mul (.fin 2) (Jq.sub (Jq.sub (Jq.mul (.fin 2) s1) s2) s0)))

/-- Result record of `Yin.detectPitch`: `pitch` is `null` (`none`) when
no lag passed the threshold test, and `probability` is the confidence
value. -/
structure YinResult where
  pitch : Option Jq
  probability : Jq
deriving DecidableEq, Repr

/-- Whole `Yin.detectPitch`: difference function, CMND, threshold
search with local-minimum walk, parabolic interpolation, and the final
`pitch = sampleRate / betterTau`, `probability = 1 - yinBuffer[tauEstimate]`.
The function is total: a no-detection frame is data in the result, not
a fault. -/
def detectPitch (sampleRate threshold : ℚ) (buf : List ℚ) : YinResult :=
  let half := buf.length / 2
  match yinFindTau buf half threshold with
  | none => { pitch := none, probability := .fin 0 }
  | some tau0 =>
      let tauEstimate := yinWalk buf half half tau0
      let betterTau := yinParabolic buf half tauEstimate
      { pitch := some (Jq.div (.fin sampleRate) betterTau)
        probability := Jq.sub (.fin 1) (yinCmnd buf tauEstimate) }

/-!
Basic facts about the YIN buffer values.
-/

/-- The difference function is a sum of squares, hence nonnegative. -/
lemma yinDiff_nonneg (buf : List ℚ) (tau : ℕ) : 0 ≤ yinDiff buf tau := by
  unfold yinDiff
  generalize List.range (buf.length / 2) = l
  suffices h : ∀ (l : List ℕ) (s : ℚ), 0 ≤ s →
      0 ≤ l.foldl (fun sum i =>
        sum + (buf.getD i 0 - buf.getD (i + tau) 0) * (buf.getD i 0 - buf.getD (i + tau) 0)) s by
    exact h l 0 le_rfl
  intro l
  induction l with
  | nil => intro s hs; simpa using hs
  | cons a l ih =>
      intro s hs
      exact ih _ (add_nonneg hs (mul_self_nonneg _))

/-- The running sum of the difference function is nonnegative. -/
lemma yinRunningSum_nonneg (buf : List ℚ) (n : ℕ) : 0 ≤ yinRunningSum buf n := by
  induction n with
  | zero => simp [yinRunningSum]
  | succ n ih => exact add_nonneg ih (yinDiff_nonneg buf (n + 1))

/-- Every CMND entry is either a nonnegative finite value or `NaN`
(the running sum can only vanish when the current difference also
vanishes, so no infinity is ever stored). -/
lemma yinCmnd_cases (buf : List ℚ) (tau : ℕ) :
    (∃ q : ℚ, 0 ≤ q ∧ yinCmnd buf tau = .fin q) ∨ yinCmnd buf tau = .nan := by
  unfold yinCmnd
  rcases Nat.eq_zero_or_pos tau with h0 | hpos
  · subst h0; exact Or.inl ⟨1, by norm_num, rfl⟩
  · have htau : (0 : ℚ) < (tau : ℚ) := by exact_mod_cast hpos
    simp only [Nat.pos_iff_ne_zero.mp hpos, if_false]
    by_cases hS : yinRunningSum buf tau = 0
    · right
      have hd : yinDiff buf tau = 0 := by
        obtain ⟨n, rfl⟩ : ∃ n, tau = n + 1 := ⟨tau - 1, by omega⟩
        have h1 : yinRunningSum buf (n + 1) = yinRunningSum buf n + yinDiff buf (n + 1) := rfl
        have h2 := yinRunningSum_nonneg buf n
        have h3 := yinDiff_nonneg buf (n + 1)
        rw [h1] at hS
        linarith
      rw [hd, hS]
      simp [Jq.div, Jq.mul, htau]
    · left
      have hSpos : 0 < yinRunningSum buf tau :=
        lt_of_le_of_ne (yinRunningSum_nonneg buf tau) (Ne.symm hS)
      refine ⟨yinDiff buf tau * ((tau : ℚ) / yinRunningSum buf tau), ?_, ?_⟩
      · exact mul_nonneg (yinDiff_nonneg buf tau) (le_of_lt (div_pos htau hSpos))
      · simp [Jq.div, Jq.mul, hS]

/-- From a true IEEE comparison `yinCmnd < threshold` we can extract a
finite nonnegative value strictly below the threshold. -/
lemma yinCmnd_lt_fin (buf : List ℚ) (tau : ℕ) (thr : ℚ)
    (h : Jq.lt (yinCmnd buf tau) (.fin thr) = true) :
    ∃ q : ℚ, yinCmnd buf tau = .fin q ∧ 0 ≤ q ∧ q < thr := by
  rcases yinCmnd_cases buf tau with ⟨q, hq, heq⟩ | heq
  · refine ⟨q, heq, hq, ?_⟩
    rw [heq] at h
    simpa [Jq.lt] using h
  · rw [heq] at h
    simp [Jq.lt] at h

/-- The local-minimum walk preserves the property of being strictly
below the threshold: each step requires the next entry to compare
strictly below the current one. -/
lemma yinWalk_keeps_lt (buf : List ℚ) (half : ℕ) (thr : ℚ) :
    ∀ (fuel tau : ℕ), Jq.lt (yinCmnd buf tau) (.fin thr) = true →
      Jq.lt (yinCmnd buf (yinWalk buf half fuel tau)) (.fin thr) = true := by
  intro fuel
  induction fuel with
  | zero => intro tau h; exact h
  | succ fuel ih =>
      intro tau h
      unfold yinWalk
      by_cases hc : tau + 1 < half ∧ Jq.lt (yinCmnd buf (tau + 1)) (yinCmnd buf tau) = true
      · rw [if_pos hc]
        obtain ⟨q, hq, _, hqthr⟩ := yinCmnd_lt_fin buf tau thr h
        apply ih
        obtain ⟨w, hw, _, hwq⟩ : ∃ w : ℚ, yinCmnd buf (tau + 1) = .fin w ∧ 0 ≤ w ∧ w < q := by
          have h2 := hc.2
          rw [hq] at h2
          exact yinCmnd_lt_fin buf (tau + 1) q h2
        rw [hw]
        simp only [Jq.lt, decide_eq_true_eq]
        exact lt_trans hwq hqthr
      · rw [if_neg hc]; exact h

/-- A lag is a search candidate exactly when it lies in `[2, half)`. -/
lemma mem_tauCandidates (half tau : ℕ) :
    tau ∈ List.range' 2 (half - 2) ↔ 2 ≤ tau ∧ tau < half := by
  rw [List.mem_range']
  constructor
  · rintro ⟨i, hi, rfl⟩; omega
  · rintro ⟨h2, hh⟩; exact ⟨tau - 2, by omega, by omega⟩

/-- Claim C2: `detectPitch` reports no detection (`pitch = none`,
`probability = 0`) if and only if no lag `τ ∈ [2, halfLength)` has a
CMND value comparing below the threshold (IEEE comparison, as the
source performs it).  `detectPitch` is a total function, so a
no-detection frame is data in the result, never a fault. -/
theorem yin_no_detection_iff (sr thr : ℚ) (buf : List ℚ) :
    ((detectPitch sr thr buf).pitch = none ∧ (detectPitch sr thr buf).probability = .fin 0)
      ↔ ¬ ∃ tau, 2 ≤ tau ∧ tau < buf.length / 2 ∧
            Jq.lt (yinCmnd buf tau) (.fin thr) = true := by
  unfold detectPitch
  cases hfind : yinFindTau buf (buf.length / 2) thr with
  | none =>
      simp only [hfind]
      unfold yinFindTau at hfind
      constructor
      · intro _
        rintro ⟨tau, h2, hh, hlt⟩
        have hmem : tau ∈ List.range' 2 (buf.length / 2 - 2) :=
          (mem_tauCandidates (buf.length / 2) tau).mpr ⟨h2, hh⟩
        have := List.find?_eq_none.mp hfind tau hmem
        exact this hlt
      · intro _; exact ⟨trivial, trivial⟩
  | some tau0 =>
      simp only [hfind, reduceCtorEq, false_and, false_iff, not_not]
      unfold yinFindTau at hfind
      have hp : Jq.lt (yinCmnd buf tau0) (.fin thr) = true := by
        have := List.find?_some hfind
        simpa using this
      have hmem : tau0 ∈ List.range' 2 (buf.length / 2 - 2) :=
        List.mem_of_find?_eq_some hfind
      obtain ⟨h2, hh⟩ := (mem_tauCandidates (buf.length / 2) tau0).mp hmem
      exact ⟨tau0, h2, hh, hp⟩

/-- On an all-zero frame every list read yields `0`. -/
lemma getD_replicate_zero (n i : ℕ) : (List.replicate n (0 : ℚ)).getD i 0 = 0 := by
  rcases lt_or_le i n with h | h
  · rw [List.getD_eq_getElem _ _ (by simpa using h)]
    simp
  · rw [List.getD_eq_default _ _ (by simpa using h)]

/-- On an all-zero frame the difference function vanishes for every lag. -/
lemma yinDiff_silent (n tau : ℕ) : yinDiff (List.replicate n 0) tau = 0 := by
  unfold yinDiff
  generalize List.range ((List.replicate n (0 : ℚ)).length / 2) = l
  suffices h : ∀ (l : List ℕ) (s : ℚ),
      l.foldl (fun sum i =>
        sum + ((List.replicate n (0 : ℚ)).getD i 0 - (List.replicate n 0).getD (i + tau) 0) *
          ((List.replicate n (0 : ℚ)).getD i 0 - (List.replicate n 0).getD (i + tau) 0)) s = s by
    exact h l 0
  intro l
  induction l with
  | nil => intro s; rfl
  | cons a l ih =>
      intro s
      rw [List.foldl_cons]
      have h : s + ((List.replicate n (0 : ℚ)).getD a 0 - (List.replicate n 0).getD (a + tau) 0) *
          ((List.replicate n (0 : ℚ)).getD a 0 - (List.replicate n 0).getD (a + tau) 0) = s := by
        rw [getD_replicate_zero, getD_replicate_zero]; ring
      rw [h]
      exact ih s

/-- On an all-zero frame the running sum stays at zero. -/
lemma yinRunningSum_silent (n : ℕ) : ∀ k, yinRunningSum (List.replicate n 0) k = 0 := by
  intro k
  induction k with
  | zero => rfl
  | succ k ih => simp [yinRunningSum, ih, yinDiff_silent]

/-- Claim C3: for an all-zero (silent) frame of any length, the
normalization step divides by a zero running sum; in IEEE arithmetic
the stored CMND entries become `0 * (τ / 0) = 0 * ∞ = NaN`, every
threshold comparison on them is false, and `detectPitch` returns a
missing frequency with confidence `0`.  `detectPitch` is total, so no
division-by-zero fault occurs. -/
theorem yin_silent_frame (sr thr : ℚ) (n : ℕ) :
    detectPitch sr thr (List.replicate n 0) = { pitch := none, probability := .fin 0 } := by
  have hfind : yinFindTau (List.replicate n 0) ((List.replicate n (0 : ℚ)).length / 2) thr = none := by
    unfold yinFindTau
    rw [List.find?_eq_none]
    intro tau hmem
    obtain ⟨h2, _⟩ := (mem_tauCandidates _ tau).mp hmem
    have htau : (0 : ℚ) < (tau : ℚ) := by exact_mod_cast (by omega : 0 < tau)
    unfold yinCmnd
    rw [if_neg (by omega : ¬ tau = 0), yinDiff_silent, yinRunningSum_silent]
    simp [Jq.div, Jq.mul, Jq.lt, htau]
  unfold detectPitch
  simp only [hfind]

/-- Claim C8: whenever `detectPitch` reports a pitch, the confidence is
a finite value in the interval `(1 - threshold, 1]`: the CMND value at
the selected integer lag is nonnegative and compares strictly below the
threshold, and the reported confidence is `1` minus that value. -/
theorem yin_confidence_in_range (sr thr : ℚ) (buf : List ℚ) (p : Jq)
    (h : (detectPitch sr thr buf).pitch = some p) :
    ∃ c : ℚ, (detectPitch sr thr buf).probability = .fin c ∧ 1 - thr < c ∧ c ≤ 1 := by
  unfold detectPitch at h ⊢
  cases hfind : yinFindTau buf (buf.length / 2) thr with
  | none => simp only [hfind] at h; simp at h
  | some tau0 =>
      simp only [hfind] at h ⊢
      have hp0 : Jq.lt (yinCmnd buf tau0) (.fin thr) = true := by
        unfold yinFindTau at hfind
        have := List.find?_some hfind
        simpa using this
      have hpE := yinWalk_keeps_lt buf (buf.length / 2) thr (buf.length / 2) tau0 hp0
      obtain ⟨v, hv, hv0, hvthr⟩ := yinCmnd_lt_fin buf _ thr hpE
      refine ⟨1 - v, ?_, by linarith, by linarith⟩
      simp only [hv, Jq.sub, Jq.neg, Jq.add, Jq.fin.injEq]
      ring

/-- Concrete witness for C8: a period-2 alternating frame of length 8
is detected at lag 2 with confidence 1, which lies in `(0.9, 1]`. -/
theorem yin_confidence_in_range_witness :
    ∃ c : ℚ, (detectPitch 8000 (1/10) [1, 0, 1, 0, 1, 0, 1, 0]).probability = .fin c ∧
      1 - 1/10 < c ∧ c ≤ 1 :=
  yin_confidence_in_range 8000 (1/10) [1, 0, 1, 0, 1, 0, 1, 0] (.fin (80000/19))
    (by with_unfolding_all rfl)

/-!
Note utilities, from `src/core/note-utils.ts`.  `Math.log2` and
`Math.pow(2, _)` are irrational in general, so they are supplied by the
`MathOps` oracle bundle; the rest of the arithmetic is exact.
`Math.round x` is `⌊x + 1/2⌋`, which is Mathlib's `round`; the
JavaScript remainder `%` keeps the sign of the dividend, which is
`Int.tmod`; `Math.floor` of a quotient of integers is `Int.fdiv`.
-/

/-- Oracle bundle for the transcendental `Math` library calls used by
the source (`sqrt`, `log2`, `pow(2, _)`, `cos`, `sin`, and the constant
`Math.PI`). -/
structure MathOps where
  sqrtq : ℚ → ℚ
  log2q : ℚ → ℚ
  pow2q : ℚ → ℚ
  cosq : ℚ → ℚ
  sinq : ℚ → ℚ
  piq : ℚ

/-- The constant `A4_FREQUENCY` of `note-utils.ts`. -/
def A4_FREQUENCY : ℚ := 440

/-- The sharp-preferring spelling table `NOTES_SHARP`. -/
def NOTES_SHARP : List String :=
  ["C", "C#", "D", "D#", "E", "F"] ++ ["F#", "G", "G#", "A", "A#", "B"]

/-- The flat-preferring spelling table `NOTES_FLAT`. -/
def NOTES_FLAT : List String :=
  ["C", "Db", "D", "Eb", "E", "F", "Gb", "G", "Ab", "A", "Bb", "B"]

/-- Result record `NoteInfo` of `note-utils.ts` (`cents` is produced by
`Math.round`, hence an integer). -/
structure NoteInfo where
  note : String
  frequency : ℚ
  cents : ℤ
deriving DecidableEq, Repr

/-- The helper `chooseSmartAccidental`: the sharp spelling is chosen
only when it is strictly shorter than the flat one. -/
def chooseSmartAccidental (sharp flat : String) : String :=
  if sharp.length < flat.length then sharp else flat

/-- JavaScript array read `l[i]` with a possibly negative index:
`undefined` (here `none`) when out of range. -/
def tableEntry (l : List String) (i : ℤ) : Option String :=
  if i < 0 then none else l.get? i.toNat

/-- The function `frequencyToNote`.  A result of `none` models the
JavaScript `TypeError` thrown by `chooseSmartAccidental` when a table
lookup yields `undefined` (reading `.length` of `undefined`); the
truthiness guard `!frequency || frequency <= 0` is `frequency ≤ 0` on
rationals. -/
def frequencyToNote (m : MathOps) (frequency : ℚ) : Option NoteInfo :=
  if frequency ≤ 0 then some { note := "Unknown", frequency := 0, cents := 0 }
  else
    let noteNumber := 12 * m.log2q (frequency / A4_FREQUENCY) + 69
    let roundedNote : ℤ := round noteNumber
    let cents : ℤ := round ((noteNumber - (roundedNote : ℚ)) * 100)
    match tableEntry NOTES_SHARP (roundedNote.tmod 12),
          tableEntry NOTES_FLAT (roundedNote.tmod 12) with
    | some sharpName, some flatName =>
        some { note := chooseSmartAccidental sharpName flatName ++
                 toString (roundedNote.fdiv 12 - 1)
               frequency := frequency
               cents := cents }
    | _, _ => none

/-- JavaScript `String.prototype.trim` on the character list. -/
def trimChars (l : List Char) : List Char :=
  ((l.dropWhile Char.isWhitespace).reverse.dropWhile Char.isWhitespace).reverse

/-- Test of the regular expression `^\d+(\.\d+)?$` from
`parseExpectedNote`: one or more digits, optionally a dot and one or
more digits. -/
def matchNumeric (l : List Char) : Bool :=
  decide (l.takeWhile Char.isDigit ≠ []) &&
    (match l.dropWhile Char.isDigit with
     | [] => true
     | '.' :: fs => decide (fs ≠ []) && fs.all Char.isDigit
     | _ => false)

/-- Numeric value of a digit string. -/
def digitsVal (l : List Char) : ℕ :=
  l.foldl (fun a c => 10 * a + (c.toNat - Char.toNat '0')) 0

/-- Value computed by `parseFloat` on a string accepted by
`matchNumeric`. -/
def parseFloatValue (l : List Char) : ℚ :=
  match l.dropWhile Char.isDigit with
  | '.' :: fs => (digitsVal (l.takeWhile Char.isDigit) : ℚ) + (digitsVal fs : ℚ) / (10 : ℚ) ^ fs.length
  | _ => (digitsVal (l.takeWhile Char.isDigit) : ℚ)

/-- Match of the regular expression `^([A-Ga-g])([#b]?)(-?\d)$`,
returning the letter, the optional accidental and the signed one-digit
octave.  The accidental characters can never begin a `-?\d` suffix, so
committing to the greedy accidental match is equivalent to the regex
with backtracking. -/
def parseNoteName (l : List Char) : Option (Char × Option Char × ℤ) :=
  match l with
  | [] => none
  | letter :: rest =>
      if ('A' ≤ letter ∧ letter ≤ 'G') ∨ ('a' ≤ letter ∧ letter ≤ 'g') then
        let accRest : Option Char × List Char :=
          match rest with
          | c :: rest2 => if c = '#' ∨ c = 'b' then (some c, rest2) else (none, c :: rest2)
          | [] => (none, [])
        match accRest.2 with
        | ['-', d] =>
            if d.isDigit then some (letter, accRest.1, -(Int.ofNat (d.toNat - Char.toNat '0')))
            else none
        | [d] =>
            if d.isDigit then some (letter, accRest.1, Int.ofNat (d.toNat - Char.toNat '0'))
            else none
        | _ => none
      else none

/-- JavaScript `Array.prototype.indexOf`: index of the first match, or
`-1` when absent. -/
def jsIndexOf : List String → String → ℤ
  | [], _ => -1
  | a :: as, x =>
      if a = x then 0
      else
        let r := jsIndexOf as x
        if r = -1 then -1 else r + 1

/-- Name looked up in the spelling tables by `parseExpectedNote`: the
upper-cased letter followed by the accidental, if any. -/
def noteLookupName (letter : Char) (acc : Option Char) : String :=
  String.mk (letter.toUpper :: (match acc with | some c => [c] | none => []))

/-- The function `parseExpectedNote`: a plain decimal is taken as Hz
(`parseFloat` of the input equals the value of the trimmed digits);
otherwise the note-name pattern is matched, the semitone index is
`max(indexOf sharp table, indexOf flat table)` (which is `-1` when the
name is in neither table), and the result is
`440 * 2^((midi - 69)/12)` with `midi = semitone + (octave+1)*12`.
Unmatched input returns `none`. -/
def parseExpectedNote (m : MathOps) (input : String) : Option ℚ :=
  let t := trimChars input.data
  if matchNumeric t then some (parseFloatValue t)
  else
    match parseNoteName t with
    | none => none
    | some (letter, acc, octave) =>
        let semitone := max (jsIndexOf NOTES_SHARP (noteLookupName letter acc))
          (jsIndexOf NOTES_FLAT (noteLookupName letter acc))
        let midi := semitone + (octave + 1) * 12
        some (A4_FREQUENCY * m.pow2q (((midi : ℚ) - 69) / 12))

/-- The function `centsOffFromReference`. -/
def centsOffFromReference (m : MathOps) (freq expected : ℚ) : ℚ :=
  1200 * m.log2q (freq / expected)

/-!
Claims C5, C9, C10 about the note utilities.
-/

/-- Oracle instance whose `log2` is the constant `-2/3`, the exact
base-2 logarithm of the frequency ratio of MIDI note 61 to A4
(`2^(-2/3) · 440 ≈ 277.18 Hz`). -/
def mAcc : MathOps :=
  { sqrtq := fun _ => 0, log2q := fun _ => -2/3, pow2q := fun _ => 0
    cosq := fun _ => 0, sinq := fun _ => 0, piq := 0 }

/-- Counterexample to claim C5: at the frequency of MIDI note 61
(`≈ 277.18 Hz`, note number exactly 61 under the oracle), the source
names the note `"Db4"` from the flat table, not a name beginning with
`"C#"`: `chooseSmartAccidental` keeps the sharp spelling only when it
is strictly shorter, so a length tie favors the flat table. -/
theorem note_tie_counterexample :
    frequencyToNote mAcc (27718/100) =
      some { note := "Db4", frequency := 27718/100, cents := 0 } ∧
    "Db4".take 2 ≠ "C#" := by
  constructor
  · with_unfolding_all rfl
  · decide

/-- Claim C5 (amended): for every positive frequency whose rounded note
number falls in one of the five accidental pitch classes
(`r mod 12 ∈ {1,3,6,8,10}`, where both spellings have two characters),
`frequencyToNote` names the note from the FLAT table: a tie in spelling
length favors the flat table. -/
theorem note_tie_prefers_flat (m : MathOps) (f : ℚ) (r : ℤ)
    (hf : 0 < f)
    (hr : round (12 * m.log2q (f / A4_FREQUENCY) + 69) = r)
    (hidx : r.tmod 12 = 1 ∨ r.tmod 12 = 3 ∨ r.tmod 12 = 6 ∨ r.tmod 12 = 8 ∨ r.tmod 12 = 10) :
    ∃ info : NoteInfo, frequencyToNote m f = some info ∧
      info.note = (tableEntry NOTES_FLAT (r.tmod 12)).getD "" ++ toString (r.fdiv 12 - 1) := by
  unfold frequencyToNote
  rw [if_neg (not_le.mpr hf)]
  simp only [hr]
  rcases hidx with h | h | h | h | h <;>
    · rw [h]
      exact ⟨_, rfl, rfl⟩

/-- Witness for the amended C5 at the MIDI-61 frequency: the note is
named from the flat table (`"Db" ++ "4"`). -/
theorem note_tie_prefers_flat_witness :
    ∃ info : NoteInfo, frequencyToNote mAcc (27718/100) = some info ∧
      info.note = (tableEntry NOTES_FLAT ((61 : ℤ).tmod 12)).getD "" ++ toString ((61 : ℤ).fdiv 12 - 1) :=
  note_tie_prefers_flat mAcc (27718/100) 61 (by norm_num)
    (by with_unfolding_all rfl) (by with_unfolding_all decide)

/-- Oracle instance whose `log2` is the constant `-2987/500 = -5.974`,
a rational approximation of `log2(7/440)`; under it the input `7 Hz`
has note number `-2.688`, which rounds to `-3`. -/
def mLow : MathOps :=
  { sqrtq := fun _ => 0, log2q := fun _ => -2987/500, pow2q := fun _ => 0
    cosq := fun _ => 0, sinq := fun _ => 0, piq := 0 }

/-- Counterexample to claim C9: at the positive input `7 Hz` the guard
does not trigger and the table index `roundedNote % 12 = -3` is
negative, but no note name is returned at all — both table lookups
yield `undefined` and the call faults (`TypeError` reading `.length` of
`undefined` inside `chooseSmartAccidental`), modelled as `none`. -/
theorem low_freq_counterexample :
    (round (12 * mLow.log2q ((7 : ℚ) / A4_FREQUENCY) + 69)).tmod 12 = -3 ∧
    frequencyToNote mLow 7 = none := by
  constructor
  · with_unfolding_all rfl
  · with_unfolding_all rfl

/-- Claim C9 (amended): for every positive frequency whose rounded note
number gives a negative table index `roundedNote % 12` (JavaScript
remainder), the guard — which covers only missing or non-positive
input — does not trigger, both spelling-table lookups miss, and
`frequencyToNote` faults instead of returning a note. -/
theorem low_freq_fault (m : MathOps) (f : ℚ)
    (hf : 0 < f)
    (hneg : (round (12 * m.log2q (f / A4_FREQUENCY) + 69)).tmod 12 < 0) :
    frequencyToNote m f = none := by
  unfold frequencyToNote
  rw [if_neg (not_le.mpr hf)]
  simp only [tableEntry, if_pos hneg]

/-- Witness for the amended C9 at `7 Hz` with the `mLow` oracle. -/
theorem low_freq_fault_witness : frequencyToNote mLow 7 = none :=
  low_freq_fault mLow 7 (by norm_num) (by with_unfolding_all decide)

/-- A string accepted by the note-name pattern starts with a letter
`A`–`G` or `a`–`g`, so the numeric pattern `^\d+(\.\d+)?$` rejects it. -/
lemma matchNumeric_false_of_parseNoteName (l : List Char) (x : Char × Option Char × ℤ)
    (hp : parseNoteName l = some x) : matchNumeric l = false := by
  cases l with
  | nil => simp [parseNoteName] at hp
  | cons c rest =>
      simp only [parseNoteName] at hp
      by_cases hc : ('A' ≤ c ∧ c ≤ 'G') ∨ ('a' ≤ c ∧ c ≤ 'g')
      · have hd : c.isDigit = false := by
          have h9 : ¬ c ≤ '9' := by
            rcases hc with ⟨h1, _⟩ | ⟨h1, _⟩
            · intro hle; exact absurd (le_trans h1 hle) (by decide)
            · intro hle; exact absurd (le_trans h1 hle) (by decide)
          simp only [Char.isDigit]
          rw [Bool.and_eq_false_iff]
          right
          simpa [decide_eq_false_iff_not] using h9
        unfold matchNumeric
        simp [List.takeWhile, hd]
      · rw [if_neg hc] at hp
        exact absurd hp (by simp)

/-- Claim C10: a string matching the note-name grammar whose
letter-plus-accidental name is in neither spelling table (for example
`"Cb4"`, `"E#3"`, `"Fb2"`, `"B#5"`) is NOT rejected: both `indexOf`
calls return `-1`, the semitone resolves to `max(-1,-1) = -1`, and
`parseExpectedNote` returns the frequency of MIDI note
`(octave+1)*12 - 1` — one semitone below C of the given octave's MIDI
base — instead of `none`. -/
theorem parse_unknown_name (m : MathOps) (s : String)
    (letter : Char) (acc : Option Char) (octave : ℤ)
    (hp : parseNoteName (trimChars s.data) = some (letter, acc, octave))
    (hsharp : jsIndexOf NOTES_SHARP (noteLookupName letter acc) = -1)
    (hflat : jsIndexOf NOTES_FLAT (noteLookupName letter acc) = -1) :
    parseExpectedNote m s =
      some (A4_FREQUENCY * m.pow2q (((((octave + 1) * 12 - 1 : ℤ) : ℚ) - 69) / 12)) := by
  have hnum := matchNumeric_false_of_parseNoteName _ _ hp
  unfold parseExpectedNote
  simp only [hnum, Bool.false_eq_true, if_false, hp, hsharp, hflat, max_self]
  congr 1
  congr 1
  push_cast
  ring_nf

/-- Witness for C10 on the input `"Cb4"`: the grammar accepts it, the
name `"Cb"` is in neither table, and the returned frequency is that of
MIDI note 59 (one semitone below C4's base 60). -/
theorem parse_unknown_name_witness :
    parseExpectedNote mAcc "Cb4" =
      some (A4_FREQUENCY * mAcc.pow2q ((((((4 : ℤ) + 1) * 12 - 1 : ℤ) : ℚ) - 69) / 12)) :=
  parse_unknown_name mAcc "Cb4" 'C' (some 'b') 4 (by decide) (by decide) (by decide)

/-!
Smoothing stage, from `src/core/dsp/smoothing.ts`.
-/

/-- State of the `MedianSmoother` class: the sliding `window` and its
capacity `maxSize`. -/
structure MedianSmoother where
  window : List ℚ
  maxSize : ℕ
deriving DecidableEq, Repr

/-- The method `MedianSmoother.push`: append the value, drop the oldest
entry when the window exceeds capacity (`Array.prototype.shift`), sort
a copy ascending (the comparator `(a, b) => a - b`), and return the
entry at index `⌊length / 2⌋`.  The `!isFinite(value)` early return
cannot fire on rationals.  For `maxSize = 0` and an empty window the
source would read `undefined`; the model returns the default `0` there,
a case no caller reaches (the engine always uses `maxSize ≥ 1`). -/
def MedianSmoother.push (s : MedianSmoother) (value : ℚ) : ℚ × MedianSmoother :=
  let w0 := s.window ++ [value]
  let w := if s.maxSize < w0.length then w0.tail else w0
  let sorted := w.insertionSort (· ≤ ·)
  (sorted.getD (sorted.length / 2) 0, { window := w, maxSize := s.maxSize })

/-- State of the `MovingAverage` class: the EMA factor `alpha` and the
running value (`null` before the first push). -/
structure MovingAverage where
  alpha : ℚ
  smoothed : Option ℚ
deriving DecidableEq, Repr

/-- The method `MovingAverage.push`: the first push initializes the
running value; later pushes blend `alpha * value + (1 - alpha) * old`. -/
def MovingAverage.push (s : MovingAverage) (value : ℚ) : ℚ × MovingAverage :=
  match s.smoothed with
  | none => (value, { s with smoothed := some value })
  | some sm =>
      let v := s.alpha * value + (1 - s.alpha) * sm
      (v, { s with smoothed := some v })

/-- Counterexample to claim C4: with capacity 3, pushing `100` then
`200` yields a window whose sorted copy is `[100, 200]`; the source
returns the entry at index `⌊2/2⌋ = 1`, the UPPER-middle `200`, while
the claimed lower-middle element of the sorted copy is `100`. -/
theorem median_lower_middle_counterexample :
    (MedianSmoother.push (MedianSmoother.push { window := [], maxSize := 3 } 100).2 200).1 = 200 ∧
    ¬ (MedianSmoother.push (MedianSmoother.push { window := [], maxSize := 3 } 100).2 200).1 =
        ([100, 200] : List ℚ).getD ((([100, 200] : List ℚ).length - 1) / 2) 0 := by
  constructor
  · with_unfolding_all decide
  · with_unfolding_all decide

/-- Claim C4 (amended): each push appends the newest value, evicts the
oldest once the window would exceed the capacity `w ≥ 1`, and returns
the element at index `⌊length / 2⌋` of a sorted copy of the window —
the UPPER-middle element for even window lengths (the claimed
lower-middle is wrong).  The returned value is an actual element of the
window, and the sorted copy is a genuine ascending sort. -/
theorem median_push_characterization (s : MedianSmoother) (v : ℚ) (h : 1 ≤ s.maxSize) :
    (MedianSmoother.push s v).2.window =
        (if (s.window ++ [v]).length ≤ s.maxSize then s.window ++ [v] else (s.window ++ [v]).tail) ∧
    (MedianSmoother.push s v).2.maxSize = s.maxSize ∧
    ∃ sorted : List ℚ, sorted.Perm (MedianSmoother.push s v).2.window ∧
      sorted.Sorted (· ≤ ·) ∧
      (MedianSmoother.push s v).1 = sorted.getD ((MedianSmoother.push s v).2.window.length / 2) 0 ∧
      (MedianSmoother.push s v).1 ∈ (MedianSmoother.push s v).2.window := by
  have hbranch : (if s.maxSize < (s.window ++ [v]).length then (s.window ++ [v]).tail else s.window ++ [v]) =
      (if (s.window ++ [v]).length ≤ s.maxSize then s.window ++ [v] else (s.window ++ [v]).tail) := by
    rcases lt_or_le s.maxSize (s.window ++ [v]).length with hlt | hle
    · rw [if_pos hlt, if_neg (by omega)]
    · rw [if_neg (by omega), if_pos hle]
  have h1 : (MedianSmoother.push s v).2.window =
      (if s.maxSize < (s.window ++ [v]).length then (s.window ++ [v]).tail else s.window ++ [v]) := rfl
  have h2 : (MedianSmoother.push s v).2.maxSize = s.maxSize := rfl
  have h3 : (MedianSmoother.push s v).1 =
      (((MedianSmoother.push s v).2.window).insertionSort (· ≤ ·)).getD
        ((((MedianSmoother.push s v).2.window).insertionSort (· ≤ ·)).length / 2) 0 := rfl
  have hwne : (MedianSmoother.push s v).2.window ≠ [] := by
    rw [h1]
    rcases lt_or_le s.maxSize (s.window ++ [v]).length with hlt | hle
    · rw [if_pos hlt]
      have hlen2 : 2 ≤ (s.window ++ [v]).length := by
        have hx : (s.window ++ [v]).length = s.window.length + 1 := by simp
        omega
      intro hnil
      have hlt0 := congrArg List.length hnil
      rw [List.length_tail] at hlt0
      simp only [List.length_nil] at hlt0
      omega
    · rw [if_neg (not_lt.mpr hle)]
      simp
  refine ⟨h1.trans hbranch, h2, ((MedianSmoother.push s v).2.window).insertionSort (· ≤ ·),
    List.perm_insertionSort _ _, List.sorted_insertionSort _ _, ?_, ?_⟩
  · rw [h3, (List.perm_insertionSort (· ≤ ·) _).length_eq]
  · rw [h3]
    have hlen : (((MedianSmoother.push s v).2.window).insertionSort (· ≤ ·)).length =
        ((MedianSmoother.push s v).2.window).length := (List.perm_insertionSort _ _).length_eq
    have hpos : 0 < (((MedianSmoother.push s v).2.window).insertionSort (· ≤ ·)).length := by
      rw [hlen]
      exact List.length_pos.mpr hwne
    have hidx : (((MedianSmoother.push s v).2.window).insertionSort (· ≤ ·)).length / 2 <
        (((MedianSmoother.push s v).2.window).insertionSort (· ≤ ·)).length := by
      omega
    rw [List.getD_eq_getElem _ _ hidx]
    exact ((List.perm_insertionSort (· ≤ ·) _).mem_iff).mp (List.getElem_mem hidx)

/-- Witness for the amended C4: a concrete push on a window of
capacity 3. -/
theorem median_push_characterization_witness :
    (MedianSmoother.push { window := [100], maxSize := 3 } 200).2.window =
        (if (([100] : List ℚ) ++ [200]).length ≤ 3 then ([100] : List ℚ) ++ [200]
         else (([100] : List ℚ) ++ [200]).tail) ∧
    (MedianSmoother.push { window := [100], maxSize := 3 } 200).2.maxSize = 3 ∧
    ∃ sorted : List ℚ,
      sorted.Perm (MedianSmoother.push { window := [100], maxSize := 3 } 200).2.window ∧
      sorted.Sorted (· ≤ ·) ∧
      (MedianSmoother.push { window := [100], maxSize := 3 } 200).1 =
        sorted.getD ((MedianSmoother.push { window := [100], maxSize := 3 } 200).2.window.length / 2) 0 ∧
      (MedianSmoother.push { window := [100], maxSize := 3 } 200).1 ∈
        (MedianSmoother.push { window := [100], maxSize := 3 } 200).2.window :=
  median_push_characterization { window := [100], maxSize := 3 } 200 (by norm_num)

/-!
Filter stage, from `src/core/dsp/filters.ts`; RMS and noise control,
from `src/core/dsp/rms.ts` and `src/core/dsp/noise.ts`; configuration,
from `src/core/dsp/dsp-config.ts`.
-/

/-- The five normalized coefficients stored by the `BiquadFilter`
class (its fields `a0, a1, a2, b1, b2`). -/
structure BiquadCoeffs where
  a0 : ℚ
  a1 : ℚ
  a2 : ℚ
  b1 : ℚ
  b2 : ℚ
deriving DecidableEq, Repr

/-- One sample of `BiquadFilter.processFrame` (transposed direct form
II): returns the output sample and the updated delay pair `(z1, z2)`. -/
def biquadStep (c : BiquadCoeffs) (z1 z2 input : ℚ) : ℚ × ℚ × ℚ :=
  let output := input * c.a0 + z1
  (output, input * c.a1 + z2 - c.b1 * output, input * c.a2 - c.b2 * output)

/-- The loop of `BiquadFilter.processFrame` over a whole frame,
starting from delay state `(z1, z2)`: the output frame and the final
delay state. -/
def biquadProcessFrame (c : BiquadCoeffs) : ℚ → ℚ → List ℚ → List ℚ × ℚ × ℚ
  | z1, z2, [] => ([], z1, z2)
  | z1, z2, x :: rest =>
      let step := biquadStep c z1 z2 x
      let restRes := biquadProcessFrame c step.2.1 step.2.2 rest
      (step.1 :: restRes.1, restRes.2)

/-- The function `createHighPassFilter`: RBJ cookbook coefficients,
normalized by `a0`.  `Math.PI`, `Math.cos`, `Math.sin` come from the
oracle bundle. -/
def createHighPassFilter (m : MathOps) (cutoff sampleRate Q : ℚ) : BiquadCoeffs :=
  let w0 := 2 * m.piq * cutoff / sampleRate
  let cosw := m.cosq w0
  let sinw := m.sinq w0
  let alpha := sinw / (2 * Q)
  let b0 := (1 + cosw) / 2
  let b1 := -(1 + cosw)
  let b2 := (1 + cosw) / 2
  let a0 := 1 + alpha
  let a1 := -2 * cosw
  let a2 := 1 - alpha
  { a0 := b0 / a0, a1 := b1 / a0, a2 := b2 / a0, b1 := a1 / a0, b2 := a2 / a0 }

/-- The function `createLowPassFilter`. -/
def createLowPassFilter (m : MathOps) (cutoff sampleRate Q : ℚ) : BiquadCoeffs :=
  let w0 := 2 * m.piq * cutoff / sampleRate
  let cosw := m.cosq w0
  let sinw := m.sinq w0
  let alpha := sinw / (2 * Q)
  let b0 := (1 - cosw) / 2
  let b1 := 1 - cosw
  let b2 := (1 - cosw) / 2
  let a0 := 1 + alpha
  let a1 := -2 * cosw
  let a2 := 1 - alpha
  { a0 := b0 / a0, a1 := b1 / a0, a2 := b2 / a0, b1 := a1 / a0, b2 := a2 / a0 }

/-- The configuration record `DSPConfig`.  `frameSize` is kept as an
integer because callers may pass non-positive values (claim C6); it is
never read by the engine core. -/
structure DSPConfig where
  highPassCutoff : ℚ
  lowPassCutoff : ℚ
  highPassQ : Option ℚ
  lowPassQ : Option ℚ
  noiseGateThreshold : ℚ
  enableNoiseGate : Bool
  enableNormalization : Bool
  normalizationTargetRMS : ℚ
  enableMedianSmoothing : Bool
  medianWindowSize : ℕ
  enableMovingAverage : Bool
  movingAverageAlpha : ℚ
  frameSize : ℤ
deriving DecidableEq, Repr

/-- A `Partial<DSPConfig>` value: each field either supplied or absent.
A shallow spread `{ ...base, ...patch }` replaces exactly the supplied
fields. -/
structure DSPConfigPatch where
  highPassCutoff : Option ℚ := none
  lowPassCutoff : Option ℚ := none
  highPassQ : Option ℚ := none
  lowPassQ : Option ℚ := none
  noiseGateThreshold : Option ℚ := none
  enableNoiseGate : Option Bool := none
  enableNormalization : Option Bool := none
  normalizationTargetRMS : Option ℚ := none
  enableMedianSmoothing : Option Bool := none
  medianWindowSize : Option ℕ := none
  enableMovingAverage : Option Bool := none
  movingAverageAlpha : Option ℚ := none
  frameSize : Option ℤ := none
deriving DecidableEq, Repr

/-- The shallow merge `{ ...base, ...patch }`. -/
def mergeConfig (base : DSPConfig) (p : DSPConfigPatch) : DSPConfig :=
  { highPassCutoff := p.highPassCutoff.getD base.highPassCutoff
    lowPassCutoff := p.lowPassCutoff.getD base.lowPassCutoff
    highPassQ := match p.highPassQ with | some q => some q | none => base.highPassQ
    lowPassQ := match p.lowPassQ with | some q => some q | none => base.lowPassQ
    noiseGateThreshold := p.noiseGateThreshold.getD base.noiseGateThreshold
    enableNoiseGate := p.enableNoiseGate.getD base.enableNoiseGate
    enableNormalization := p.enableNormalization.getD base.enableNormalization
    normalizationTargetRMS := p.normalizationTargetRMS.getD base.normalizationTargetRMS
    enableMedianSmoothing := p.enableMedianSmoothing.getD base.enableMedianSmoothing
    medianWindowSize := p.medianWindowSize.getD base.medianWindowSize
    enableMovingAverage := p.enableMovingAverage.getD base.enableMovingAverage
    movingAverageAlpha := p.movingAverageAlpha.getD base.movingAverageAlpha
    frameSize := p.frameSize.getD base.frameSize }

/-- The embedded defaults `EMBEDDED_DEFAULTS` of `dsp-config.ts`.  The
conditional Node.js probe for an external `dsp-config.json` is
host-environment I/O outside the core (spec section 9); absent that
file, `defaultDSPConfig` is exactly these values. -/
def defaultDSPConfig : DSPConfig :=
  { highPassCutoff := 50
    lowPassCutoff := 0
    highPassQ := some (707/1000)
    lowPassQ := some (707/1000)
    noiseGateThreshold := 1/50
    enableNoiseGate := true
    enableNormalization := true
    normalizationTargetRMS := 1/4
    enableMedianSmoothing := true
    medianWindowSize := 5
    enableMovingAverage := true
    movingAverageAlpha := 7/20
    frameSize := 2048 }

/-- The function `calculateRMS`: `sqrt(sumSquares / length)` (for an
empty frame the source divides `0/0`, a case no claim touches). -/
def calculateRMS (m : MathOps) (frame : List ℚ) : ℚ :=
  m.sqrtq ((frame.foldl (fun sum x => sum + x * x) 0) / (frame.length : ℚ))

/-- The function `normalizeFrame` of `noise.ts`. -/
def normalizeFrame (m : MathOps) (frame : List ℚ) (targetRMS : Option ℚ) : List ℚ :=
  let desired := targetRMS.getD defaultDSPConfig.normalizationTargetRMS
  let rms := calculateRMS m frame
  if rms = 0 then frame
  else frame.map (fun x => x * (desired / rms))

/-- The function `softNoiseGate` of `noise.ts`. -/
def softNoiseGate (m : MathOps) (frame : List ℚ) (threshold : Option ℚ) : List ℚ :=
  let thr := threshold.getD defaultDSPConfig.noiseGateThreshold
  let rms := calculateRMS m frame
  if thr ≤ rms then frame
  else frame.map (fun x => x * (rms / thr))

/-- The function `applyNoiseControl`: normalization first (if enabled),
then the soft gate (if enabled). -/
def applyNoiseControl (m : MathOps) (frame : List ℚ) (cfg : DSPConfig) : List ℚ :=
  let p1 := if cfg.enableNormalization
    then normalizeFrame m frame (some cfg.normalizationTargetRMS) else frame
  if cfg.enableNoiseGate then softNoiseGate m p1 (some cfg.noiseGateThreshold) else p1

/-- The function `applyFilters`: for each enabled cutoff a NEW
`BiquadFilter` is constructed (`new BiquadFilter(...)` inside
`createHighPassFilter`/`createLowPassFilter`), whose delay state starts
at the class field initializers `z1 = 0, z2 = 0`; the final delay state
is discarded with the filter object when the call returns. -/
def applyFilters (m : MathOps) (frame : List ℚ) (sampleRate : ℚ) (cfg : DSPConfig) : List ℚ :=
  let p1 := if 0 < cfg.highPassCutoff then
      (biquadProcessFrame
        (createHighPassFilter m cfg.highPassCutoff sampleRate (cfg.highPassQ.getD (707/1000)))
        0 0 frame).1
    else frame
  if 0 < cfg.lowPassCutoff then
    (biquadProcessFrame
      (createLowPassFilter m cfg.lowPassCutoff sampleRate (cfg.lowPassQ.getD (707/1000)))
      0 0 p1).1
  else p1

/-!
Pitch engine orchestrator, from `src/core/pitch-engine.ts`.
-/

/-- A caller-supplied expected note: a string (note name or numeric
text) or a number (Hz). -/
inductive ExpectedInput where
  | str (s : String)
  | num (q : ℚ)
deriving DecidableEq, Repr

/-- The record `ProcessOptions`. -/
structure ProcessOptions where
  expectedNote : Option ExpectedInput := none
  advancedConfig : Option DSPConfigPatch := none
  smoothing : Option Bool := none
deriving DecidableEq, Repr

/-- The record `PitchResult` returned by `processFrame`. -/
structure PitchResult where
  frequency : Option Jq
  note : Option String := none
  confidence : Jq
  frameRMS : ℚ
  expectedNote : Option String := none
  deviation : Option String := none
deriving DecidableEq, Repr

/-- The private method `PitchEngine.normalizeExpected`: a number is
accepted when positive; a string goes through `parseExpectedNote` and
is accepted when the parse is truthy and positive. -/
def normalizeExpected (m : MathOps) (input : ExpectedInput) : Option ℚ :=
  match input with
  | .num q => if 0 < q then some q else none
  | .str s =>
      match parseExpectedNote m s with
      | some p => if 0 < p then some p else none
      | none => none

/-- Rounding performed by `Number.prototype.toFixed`: round half away
from zero at `d` decimal digits. -/
def toFixedRound (q : ℚ) (d : ℕ) : ℤ :=
  if 0 ≤ q then round (q * 10 ^ d) else -(round (-q * 10 ^ d))

/-- Left-pad a digit string with zeros to the given width. -/
def padLeftZeros (s : String) (d : ℕ) : String :=
  if s.length < d then String.mk (List.replicate (d - s.length) '0') ++ s else s

/-- `Number.prototype.toFixed` on a rational (the negative-zero
rendering `"-0.0"` of JavaScript is not modelled; no reachable call
site produces it). -/
def toFixed (q : ℚ) (d : ℕ) : String :=
  let n := toFixedRound q d
  let mag := n.natAbs
  let sign := if n < 0 then "-" else ""
  if d = 0 then sign ++ toString (mag / 10 ^ d)
  else sign ++ toString (mag / 10 ^ d) ++ "." ++ padLeftZeros (toString (mag % 10 ^ d)) d

/-- The private method `PitchEngine.formatDeviation`:
`"+5.2 cents sharp"` / `"-12.1 cents flat"` (for negative cents the
minus sign comes from `toFixed` of the magnitude being prefixed by the
empty sign — the source writes the sign only for nonnegative cents and
shows `Math.abs(cents).toFixed(1)`). -/
def formatDeviation (cents : ℚ) : String :=
  (if 0 ≤ cents then "+" else "") ++ toFixed |cents| 1 ++ " cents " ++
    (if 0 ≤ cents then "sharp" else "flat")

/-- The private method `PitchEngine.describeExpected`: keep the
caller's (trimmed) musical notation when the string contains a note
letter, otherwise show the Hz form. -/
def describeExpected (input : ExpectedInput) (hz : ℚ) : String :=
  match input with
  | .str s =>
      if s.data.any (fun c => ('A' ≤ c ∧ c ≤ 'G') ∨ ('a' ≤ c ∧ c ≤ 'g'))
      then String.mk (trimChars s.data)
      else toFixed hz 2 ++ " Hz"
  | .num _ => toFixed hz 2 ++ " Hz"

/-- The echo of an unresolvable expected note (the `else` branch of
step 6 of `processFrame`): numbers as `toFixed 2 ++ " Hz"`, strings
unchanged (`String(input)`). -/
def echoExpected (input : ExpectedInput) : String :=
  match input with
  | .num q => toFixed q 2 ++ " Hz"
  | .str s => s

/-- State of the `PitchEngine` class: sample rate, stored config, the
`Yin` instance (threshold `0.10`), and the two smoothers. -/
structure PitchEngine where
  sampleRate : ℚ
  dspConfig : DSPConfig
  yinThreshold : ℚ
  median : MedianSmoother
  ema : MovingAverage
deriving DecidableEq, Repr

/-- The `PitchEngine` constructor: merges the partial config over the
defaults and sizes the smoothers from it.  It performs no validation of
any kind. -/
def PitchEngine.create (sampleRate : ℚ) (config : DSPConfigPatch) : PitchEngine :=
  let cfg := mergeConfig defaultDSPConfig config
  { sampleRate := sampleRate
    dspConfig := cfg
    yinThreshold := 1/10
    median := { window := [], maxSize := cfg.medianWindowSize }
    ema := { alpha := cfg.movingAverageAlpha, smoothed := none } }

/-- The method `PitchEngine.updateConfig`: shallow-merges the patch
into the stored config; a truthy `medianWindowSize` or
`movingAverageAlpha` in the patch reconstructs the corresponding
smoother with fresh state (`0` is falsy and does not reconstruct).  No
validation is performed. -/
def PitchEngine.updateConfig (e : PitchEngine) (config : DSPConfigPatch) : PitchEngine :=
  { e with
    dspConfig := mergeConfig e.dspConfig config
    median := match config.medianWindowSize with
      | some w => if w = 0 then e.median else { window := [], maxSize := w }
      | none => e.median
    ema := match config.movingAverageAlpha with
      | some a => if a = 0 then e.ema else { alpha := a, smoothed := none }
      | none => e.ema }

/-- Step 3 of `PitchEngine.processFrame` (optional smoothing): the
detected pitch is pushed through the median smoother and the EMA when
smoothing is requested and the pitch is truthy and finite
(`doSmooth && pitch && isFinite(pitch)`); otherwise the raw pitch
passes through and the smoother state is untouched. -/
def smoothStep (median : MedianSmoother) (ema : MovingAverage) (doSmooth : Bool)
    (pitch : Option Jq) : Option Jq × MedianSmoother × MovingAverage :=
  match pitch with
  | some (.fin q) =>
      if doSmooth = true ∧ q ≠ 0 then
        let mp := median.push q
        let ep := ema.push mp.1
        (some (.fin ep.1), mp.2, ep.2)
      else (pitch, median, ema)
  | _ => (pitch, median, ema)

/-- Step 5 of `PitchEngine.processFrame` (note naming): when the
frequency is truthy and positive, name it with `frequencyToNote`.  The
outer `none` models the propagated `TypeError` when `frequencyToNote`
faults (including an infinite frequency, whose `NaN` table index makes
both lookups `undefined`); `some none` means no note field. -/
def noteFieldStep (m : MathOps) (sp : Option Jq) : Option (Option String) :=
  match sp with
  | some v =>
      if v.truthy && v.gtZero then
        match v with
        | .fin q => (frequencyToNote m q).map (fun ni => some ni.note)
        | _ => none
      else some none
  | none => some none

/-- Step 6 of `PitchEngine.processFrame` (expected-note resolution):
returns the `expectedNote` and `deviation` fields.  When the reference
resolves and the frequency is positive, both are produced; in every
other case with an expected note supplied, the caller's raw input is
echoed and no deviation is produced.  (An infinite frequency cannot
reach this step: step 5 has already faulted on it.) -/
def expDevStep (m : MathOps) (expected : Option ExpectedInput) (sp : Option Jq) :
    Option String × Option String :=
  match expected with
  | none => (none, none)
  | some input =>
      match normalizeExpected m input with
      | some hz =>
          match sp with
          | some (.fin q) =>
              if 0 < q then
                (some (describeExpected input hz),
                 some (formatDeviation (centsOffFromReference m q hz)))
              else (some (echoExpected input), none)
          | _ => (some (echoExpected input), none)
      | none => (some (echoExpected input), none)

/-- Body of `PitchEngine.processFrame`, with the mutable engine state
(median window, EMA value) threaded explicitly.  A result of `none`
models the `TypeError` thrown by `frequencyToNote` on the rare
degenerate frequencies (see `frequencyToNote`); every per-frame
condition short of that fault is data in the result record.  Step
order follows the source: per-call config merge, filters, RMS, noise
control, YIN, optional smoothing, note naming, expected-note
resolution. -/
def processFrameCore (m : MathOps) (sampleRate yinThreshold : ℚ) (dspConfig : DSPConfig)
    (median : MedianSmoother) (ema : MovingAverage)
    (frame : List ℚ) (opts : ProcessOptions) :
    Option (PitchResult × MedianSmoother × MovingAverage) :=
  let cfg := mergeConfig dspConfig (opts.advancedConfig.getD {})
  let filtered := applyFilters m frame sampleRate cfg
  let frameRMS := calculateRMS m filtered
  let processed := applyNoiseControl m filtered cfg
  let r := detectPitch sampleRate yinThreshold processed
  let sres := smoothStep median ema (opts.smoothing.getD true) r.pitch
  match noteFieldStep m sres.1 with
  | none => none
  | some noteField =>
      let ed := expDevStep m opts.expectedNote sres.1
      some ({ frequency := sres.1
              note := noteField
              confidence := r.probability
              frameRMS := frameRMS
              expectedNote := ed.1
              deviation := ed.2 },
            sres.2.1, sres.2.2)

/-- The method `PitchEngine.processFrame`: run the core and store the
updated smoother state back on the engine. -/
def PitchEngine.processFrame (m : MathOps) (e : PitchEngine) (frame : List ℚ)
    (opts : ProcessOptions) : Option (PitchResult × PitchEngine) :=
  (processFrameCore m e.sampleRate e.yinThreshold e.dspConfig e.median e.ema frame opts).map
    (fun res => (res.1, { e with median := res.2.1, ema := res.2.2 }))

/-!
Facts about the processing steps, used for claims C1 and C7.
-/

/-- A note field is produced only when the (smoothed) frequency is a
positive finite value. -/
lemma noteFieldStep_shape (m : MathOps) (sp : Option Jq) (nf : Option String)
    (h : noteFieldStep m sp = some nf) (hs : nf.isSome = true) :
    ∃ q : ℚ, sp = some (.fin q) ∧ 0 < q := by
  cases sp with
  | none =>
      simp only [noteFieldStep, Option.some.injEq] at h
      rw [← h] at hs
      simp at hs
  | some v =>
      cases v with
      | fin q =>
          simp only [noteFieldStep] at h
          by_cases hq : 0 < q
          · exact ⟨q, rfl, hq⟩
          · have hcond : (Jq.truthy (.fin q) && Jq.gtZero (.fin q)) = false := by
              simp [Jq.truthy, Jq.gtZero, hq]
            rw [hcond] at h
            simp only [Bool.false_eq_true, if_false, Option.some.injEq] at h
            rw [← h] at hs
            simp at hs
      | nan =>
          simp only [noteFieldStep, Jq.truthy, Jq.gtZero, Bool.false_and, Bool.false_eq_true,
            if_false, Option.some.injEq] at h
          rw [← h] at hs
          simp at hs
      | pinf =>
          simp [noteFieldStep, Jq.truthy, Jq.gtZero] at h
      | ninf =>
          simp only [noteFieldStep, Jq.truthy, Jq.gtZero, Bool.and_false, Bool.false_eq_true,
            if_false, Option.some.injEq] at h
          rw [← h] at hs
          simp at hs

/-- A deviation field is produced only when an expected note was
supplied, it resolved, and the frequency is a positive finite value. -/
lemma expDevStep_dev (m : MathOps) (expected : Option ExpectedInput) (sp : Option Jq)
    (hs : (expDevStep m expected sp).2.isSome = true) :
    (∃ input, expected = some input ∧ (normalizeExpected m input).isSome = true) ∧
    ∃ q : ℚ, sp = some (.fin q) ∧ 0 < q := by
  cases expected with
  | none => simp [expDevStep] at hs
  | some input =>
      cases hn : normalizeExpected m input with
      | none => simp [expDevStep, hn] at hs
      | some hz =>
          refine ⟨⟨input, rfl, by simp [hn]⟩, ?_⟩
          cases sp with
          | none => simp [expDevStep, hn] at hs
          | some v =>
              cases v with
              | fin q =>
                  by_cases hq : 0 < q
                  · exact ⟨q, rfl, hq⟩
                  · simp [expDevStep, hn, hq] at hs
              | nan => simp [expDevStep, hn] at hs
              | pinf => simp [expDevStep, hn] at hs
              | ninf => simp [expDevStep, hn] at hs

/-- When the expected note does not resolve, the caller's raw input is
echoed in the `expectedNote` field. -/
lemma expDevStep_echo (m : MathOps) (expected : Option ExpectedInput) (sp : Option Jq)
    (input : ExpectedInput) (he : expected = some input)
    (hn : normalizeExpected m input = none) :
    (expDevStep m expected sp).1 = some (echoExpected input) := by
  subst he
  simp [expDevStep, hn]

/-- Characterization of the core per-frame result record, claim C7. -/
lemma processFrameCore_spec (m : MathOps) (sr thr : ℚ) (cfg : DSPConfig)
    (med : MedianSmoother) (ema : MovingAverage) (frame : List ℚ) (opts : ProcessOptions)
    (res : PitchResult) (med' : MedianSmoother) (ema' : MovingAverage)
    (h : processFrameCore m sr thr cfg med ema frame opts = some (res, med', ema')) :
    (res.note.isSome = true → ∃ q : ℚ, res.frequency = some (.fin q) ∧ 0 < q) ∧
    (res.deviation.isSome = true →
      (∃ input, opts.expectedNote = some input ∧ (normalizeExpected m input).isSome = true) ∧
      ∃ q : ℚ, res.frequency = some (.fin q) ∧ 0 < q) ∧
    (∀ input, opts.expectedNote = some input → normalizeExpected m input = none →
      res.expectedNote = some (echoExpected input)) := by
  unfold processFrameCore at h
  simp only [] at h
  split at h
  · exact absurd h (by simp)
  · rename_i noteField heq
    simp only [Option.some.injEq, Prod.mk.injEq] at h
    obtain ⟨h1, _, _⟩ := h
    subst h1
    refine ⟨?_, ?_, ?_⟩
    · intro hs
      exact noteFieldStep_shape m _ noteField heq hs
    · intro hs
      exact expDevStep_dev m _ _ hs
    · intro input he hn
      exact expDevStep_echo m _ _ input he hn

/-- Claim C7: in every result record returned by `processFrame`, the
`note` field is populated only if a positive (finite) frequency is
present; the `deviation` field is populated only if the supplied
expected reference resolved to a frequency and a positive detected
frequency is present; and when an expected note is supplied but does
not resolve, the caller's raw input is echoed back in the
`expectedNote` field. -/
theorem engine_result_invariants (m : MathOps) (e : PitchEngine) (frame : List ℚ)
    (opts : ProcessOptions) (res : PitchResult) (e' : PitchEngine)
    (h : PitchEngine.processFrame m e frame opts = some (res, e')) :
    (res.note.isSome = true → ∃ q : ℚ, res.frequency = some (.fin q) ∧ 0 < q) ∧
    (res.deviation.isSome = true →
      (∃ input, opts.expectedNote = some input ∧ (normalizeExpected m input).isSome = true) ∧
      ∃ q : ℚ, res.frequency = some (.fin q) ∧ 0 < q) ∧
    (∀ input, opts.expectedNote = some input → normalizeExpected m input = none →
      res.expectedNote = some (echoExpected input)) := by
  unfold PitchEngine.processFrame at h
  cases hc : processFrameCore m e.sampleRate e.yinThreshold e.dspConfig e.median e.ema frame opts with
  | none => rw [hc] at h; simp at h
  | some trip =>
      rw [hc] at h
      simp only [Option.map_some', Option.some.injEq, Prod.mk.injEq] at h
      obtain ⟨h1, _⟩ := h
      rw [← h1]
      exact processFrameCore_spec m e.sampleRate e.yinThreshold e.dspConfig e.median e.ema
        frame opts trip.1 trip.2.1 trip.2.2 (by simpa using hc)

/-- Oracle instance (all transcendentals constantly zero) for the
concrete engine runs of claim C7. -/
def mOrch : MathOps :=
  { sqrtq := fun _ => 0, log2q := fun _ => 0, pow2q := fun _ => 0
    cosq := fun _ => 0, sinq := fun _ => 0, piq := 0 }

/-- Engine with the default configuration at 8 kHz for the C7 witness. -/
def eOrch : PitchEngine := PitchEngine.create 8000 {}

/-- Result of the C7 witness run: a silent frame with an unparseable
expected note `"xyz"` yields no detection and echoes the raw input. -/
def resOrch : PitchResult :=
  { frequency := none, note := none, confidence := .fin 0, frameRMS := 0
    expectedNote := some "xyz", deviation := none }

/-- Witness for C7: the invariants instantiated on a concrete run
(silent frame, expected note `"xyz"` which does not resolve). -/
theorem engine_result_invariants_witness :
    (resOrch.note.isSome = true → ∃ q : ℚ, resOrch.frequency = some (.fin q) ∧ 0 < q) ∧
    (resOrch.deviation.isSome = true →
      (∃ input, (({ expectedNote := some (.str "xyz") } : ProcessOptions)).expectedNote = some input ∧
        (normalizeExpected mOrch input).isSome = true) ∧
      ∃ q : ℚ, resOrch.frequency = some (.fin q) ∧ 0 < q) ∧
    (∀ input, (({ expectedNote := some (.str "xyz") } : ProcessOptions)).expectedNote = some input →
      normalizeExpected mOrch input = none →
      resOrch.expectedNote = some (echoExpected input)) :=
  engine_result_invariants mOrch eOrch [0, 0, 0, 0] { expectedNote := some (.str "xyz") }
    resOrch eOrch (by with_unfolding_all rfl)

/-- With smoothing disabled, the smoothing step passes the raw pitch
through and touches no state. -/
lemma smoothStep_false (median : MedianSmoother) (ema : MovingAverage) (pitch : Option Jq) :
    smoothStep median ema false pitch = (pitch, median, ema) := by
  cases pitch with
  | none => rfl
  | some v =>
      cases v with
      | fin q => simp [smoothStep]
      | nan => rfl
      | pinf => rfl
      | ninf => rfl

/-- `processFrame` never changes the engine's sample rate, stored
configuration or YIN threshold: the only mutable state is the two
smoothers. -/
lemma processFrame_preserves (m : MathOps) (e : PitchEngine) (frame : List ℚ)
    (opts : ProcessOptions) (res : PitchResult) (e' : PitchEngine)
    (h : PitchEngine.processFrame m e frame opts = some (res, e')) :
    e'.sampleRate = e.sampleRate ∧ e'.dspConfig = e.dspConfig ∧
      e'.yinThreshold = e.yinThreshold := by
  unfold PitchEngine.processFrame at h
  cases hc : processFrameCore m e.sampleRate e.yinThreshold e.dspConfig e.median e.ema frame opts with
  | none => rw [hc] at h; simp at h
  | some trip =>
      rw [hc] at h
      simp only [Option.map_some', Option.some.injEq, Prod.mk.injEq] at h
      obtain ⟨_, h2⟩ := h
      rw [← h2]
      exact ⟨rfl, rfl, rfl⟩

/-- The result component of `processFrame` is the result component of
the core run on the engine's fields. -/
lemma processFrame_fst (m : MathOps) (e : PitchEngine) (frame : List ℚ)
    (opts : ProcessOptions) :
    (PitchEngine.processFrame m e frame opts).map Prod.fst =
      (processFrameCore m e.sampleRate e.yinThreshold e.dspConfig e.median e.ema
        frame opts).map Prod.fst := by
  unfold PitchEngine.processFrame
  cases processFrameCore m e.sampleRate e.yinThreshold e.dspConfig e.median e.ema frame opts with
  | none => rfl
  | some trip => rfl

/-- With smoothing disabled, the core result record does not depend on
the smoother state at all. -/
lemma processFrameCore_smoothing_off (m : MathOps) (sr thr : ℚ) (cfg : DSPConfig)
    (med med2 : MedianSmoother) (ema ema2 : MovingAverage) (frame : List ℚ)
    (opts : ProcessOptions) (hs : opts.smoothing = some false) :
    (processFrameCore m sr thr cfg med ema frame opts).map Prod.fst =
      (processFrameCore m sr thr cfg med2 ema2 frame opts).map Prod.fst := by
  unfold processFrameCore
  rw [hs]
  simp only [Option.getD_some, smoothStep_false]
  cases noteFieldStep m (detectPitch sr thr (applyNoiseControl m
      (applyFilters m frame sr (mergeConfig cfg (opts.advancedConfig.getD {})))
      (mergeConfig cfg (opts.advancedConfig.getD {})))).pitch with
  | none => rfl
  | some noteField => rfl

/-- Oracle instance for the claim C1 filter runs: `cos ↦ 0`, `sin ↦ 1`
(any values satisfying `a0 = 1 + alpha ≠ 0` exercise the recurrence). -/
def mFilt : MathOps :=
  { sqrtq := fun q => q, log2q := fun _ => 0, pow2q := fun _ => 0
    cosq := fun _ => 0, sinq := fun _ => 1, piq := 3 }

/-- Counterexample to claim C1: with the default configuration
(high-pass at 50 Hz enabled), after processing the frame `[1]` the
filter's delay state is NOT `(0, 0)`; yet the next `applyFilters` call
constructs a fresh `BiquadFilter` and runs it from `(0, 0)` — its
output differs from the output a filter continuing from the previous
frame's end state would produce.  The state at the start of frame
`N+1` is therefore not the state at the end of frame `N`. -/
theorem filter_state_counterexample :
    (biquadProcessFrame (createHighPassFilter mFilt 50 8000 (707/1000)) 0 0 [1]).2 ≠ (0, 0) ∧
    applyFilters mFilt [1] 8000 defaultDSPConfig =
      (biquadProcessFrame (createHighPassFilter mFilt 50 8000 (707/1000)) 0 0 [1]).1 ∧
    (biquadProcessFrame (createHighPassFilter mFilt 50 8000 (707/1000))
        (biquadProcessFrame (createHighPassFilter mFilt 50 8000 (707/1000)) 0 0 [1]).2.1
        (biquadProcessFrame (createHighPassFilter mFilt 50 8000 (707/1000)) 0 0 [1]).2.2
        [1]).1 ≠
      (biquadProcessFrame (createHighPassFilter mFilt 50 8000 (707/1000)) 0 0 [1]).1 := by
  refine ⟨?_, ?_, ?_⟩
  · with_unfolding_all decide
  · with_unfolding_all rfl
  · with_unfolding_all decide

/-- Claim C1 (amended): no filter state carries across frames — each
`applyFilters` call runs freshly constructed filters from
`z1 = z2 = 0`, so apart from the smoother state the engine is
memoryless: with smoothing disabled on the second call, the result of
processing a frame is the same whether or not another frame was
processed before it. -/
theorem filter_no_memory (m : MathOps) (e e1 : PitchEngine) (f1 f2 : List ℚ)
    (opts1 opts2 : ProcessOptions) (r1 : PitchResult)
    (h1 : PitchEngine.processFrame m e f1 opts1 = some (r1, e1))
    (hs : opts2.smoothing = some false) :
    (PitchEngine.processFrame m e1 f2 opts2).map Prod.fst =
      (PitchEngine.processFrame m e f2 opts2).map Prod.fst := by
  obtain ⟨hsr, hcfg, hthr⟩ := processFrame_preserves m e f1 opts1 r1 e1 h1
  rw [processFrame_fst, processFrame_fst, hsr, hcfg, hthr]
  exact processFrameCore_smoothing_off m e.sampleRate e.yinThreshold e.dspConfig
    e1.median e.median e1.ema e.ema f2 opts2 hs

/-- Engine for the C1 witness (high-pass disabled so the first frame
produces a detection that mutates the smoother state). -/
def eFilt : PitchEngine := PitchEngine.create 8000 { highPassCutoff := some 0 }

/-- Engine state after the C1 witness's first frame: the median window
and the EMA hold the detected `80000/19 Hz`, everything else is
untouched. -/
def eFiltAfter : PitchEngine :=
  { eFilt with
    median := { window := [80000/19], maxSize := 5 }
    ema := { alpha := 7/20, smoothed := some (80000/19) } }

/-- Witness for the amended C1 on a concrete pair of frames: the first
frame is detected (mutating the smoother state), yet the second
frame's result is the same from the mutated engine as from the fresh
one. -/
theorem filter_no_memory_witness :
    (PitchEngine.processFrame mFilt eFiltAfter [1, 0, 1, 0] { smoothing := some false }).map Prod.fst =
      (PitchEngine.processFrame mFilt eFilt [1, 0, 1, 0] { smoothing := some false }).map Prod.fst :=
  filter_no_memory mFilt eFilt eFiltAfter [1, 0, 1, 0, 1, 0, 1, 0] [1, 0, 1, 0] {}
    { smoothing := some false }
    { frequency := some (.fin (80000/19)), note := some "A4", confidence := .fin 1
      frameRMS := 1/2, expectedNote := none, deviation := none }
    (by with_unfolding_all rfl) rfl

/-- Oracle instance for the claim C6 runs. -/
def mCfg : MathOps :=
  { sqrtq := fun _ => 0, log2q := fun _ => 0, pow2q := fun _ => 0
    cosq := fun _ => 0, sinq := fun _ => 0, piq := 0 }

/-- Counterexample to claim C6: an engine constructed with a
non-positive sample rate (`-8000`), a non-positive frame size (`0`) and
a high-pass cutoff at or above Nyquist (`50 ≥ -8000/2`) is built
without any error — the invalid values are stored verbatim — and a
frame is then processed to a normal result.  Nothing is detected or
surfaced at configuration or construction time. -/
theorem invalid_config_counterexample :
    (PitchEngine.create (-8000) { frameSize := some 0 }).sampleRate = -8000 ∧
    (PitchEngine.create (-8000) { frameSize := some 0 }).dspConfig.frameSize = 0 ∧
    ((-8000 : ℚ) / 2 ≤ (PitchEngine.create (-8000) { frameSize := some 0 }).dspConfig.highPassCutoff) ∧
    (PitchEngine.processFrame mCfg (PitchEngine.create (-8000) { frameSize := some 0 })
        [0, 0, 0, 0] {}).isSome = true := by
  refine ⟨rfl, by with_unfolding_all rfl, by with_unfolding_all decide, by with_unfolding_all rfl⟩

/-- Claim C6 (amended): neither the `PitchEngine` constructor nor
`updateConfig` validates anything — a non-positive sample rate, a
non-positive frame size, or a cutoff at or above Nyquist is silently
accepted: construction always succeeds, the invalid values are stored
unchanged (the exact shallow merge over the defaults), and later
`updateConfig` calls keep merging without validation. -/
theorem invalid_config_accepted (sr : ℚ) (p : DSPConfigPatch)
    (_h : sr ≤ 0 ∨ (mergeConfig defaultDSPConfig p).frameSize ≤ 0 ∨
      sr / 2 ≤ (mergeConfig defaultDSPConfig p).highPassCutoff) :
    (PitchEngine.create sr p).sampleRate = sr ∧
    (PitchEngine.create sr p).dspConfig = mergeConfig defaultDSPConfig p ∧
    ∀ q : DSPConfigPatch,
      (PitchEngine.updateConfig (PitchEngine.create sr p) q).dspConfig =
        mergeConfig (mergeConfig defaultDSPConfig p) q :=
  ⟨rfl, rfl, fun _ => rfl⟩

/-- Witness for the amended C6 at the invalid configuration of the
counterexample. -/
theorem invalid_config_accepted_witness :
    (PitchEngine.create (-8000) { frameSize := some 0 }).sampleRate = -8000 ∧
    (PitchEngine.create (-8000) { frameSize := some 0 }).dspConfig =
      mergeConfig defaultDSPConfig { frameSize := some 0 } ∧
    ∀ q : DSPConfigPatch,
      (PitchEngine.updateConfig (PitchEngine.create (-8000) { frameSize := some 0 }) q).dspConfig =
        mergeConfig (mergeConfig defaultDSPConfig { frameSize := some 0 }) q :=
  invalid_config_accepted (-8000) { frameSize := some 0 } (Or.inl (by norm_num))
